import Mathlib

/-!
Shallow embedding of `src/environments/turbulent_formation_env.py`
(`TurbulentFormationEnv`): agent dynamics, formation controller, wind drag,
vortex disturbance field, precomputed-field time lookup, reward, and the
step driver.  Real-valued numerics are modelled over `ℝ`; the time-index
lookup of the precomputed-field variant (pure comparisons and indexing) is
modelled over `ℚ` so it stays executable.
-/

namespace TurbulentFormationEnv

/-- Air density constant `self.rho = 1.184`. -/
def rho : ℝ := 1.184

/-- Robot mass `self.m = 0.2` (kg). -/
def m : ℝ := 0.2

/-- Robot radius `self.robot_radius = 0.05`. -/
def robot_radius : ℝ := 0.05

/-- Reference area `self.area = 4 * np.pi * robot_radius ** 2`. -/
noncomputable def area : ℝ := 4 * Real.pi * robot_radius ^ 2

/-- Drag coefficient `self.c_d = 0.47`. -/
def c_d : ℝ := 0.47

/-- Environment bounds `self.bounds = [-5, 5, -5, 5]`: lower bound. -/
def bmin : ℝ := -5

/-- Environment bounds: upper bound. -/
def bmax : ℝ := 5

/-- Proportional gain `self.K_p = 1.0 * 5`. -/
def K_p : ℝ := 1.0 * 5

/-- Derivative gain `self.K_d = 0.5 * 5`. -/
def K_d : ℝ := 0.5 * 5

/-- Simulation time step `self.dt = 0.033`. -/
def dt : ℝ := 0.033

/-- Episode length `self._max_episode_steps = 450`. -/
def max_episode_steps : ℕ := 450

/-- Leader final goal `self.final_goal = [0.0, 0.0]`. -/
def final_goal : ℝ × ℝ := (0, 0)

/-- Euclidean norm of a 2-vector, as computed by `np.linalg.norm`. -/
noncomputable def norm2 (w : ℝ × ℝ) : ℝ := Real.sqrt (w.1 ^ 2 + w.2 ^ 2)

/-- `wind_acceleration(v_wr) = 0.5 * rho * c_d * area * |v_wr| * v_wr / m`,
componentwise as numpy broadcasts it. -/
noncomputable def wind_acceleration (v : ℝ × ℝ) : ℝ × ℝ :=
  (0.5 * rho * c_d * area * norm2 v * v.1 / m,
   0.5 * rho * c_d * area * norm2 v * v.2 / m)

theorem norm2_nonneg (w : ℝ × ℝ) : 0 ≤ norm2 w := Real.sqrt_nonneg _

theorem norm2_eq_zero_iff (w : ℝ × ℝ) : norm2 w = 0 ↔ w = 0 := by
  unfold norm2
  rw [Real.sqrt_eq_zero (by positivity)]
  constructor
  · intro h
    have h1 : w.1 ^ 2 = 0 ∧ w.2 ^ 2 = 0 := by
      constructor <;> nlinarith [sq_nonneg w.1, sq_nonneg w.2]
    have := pow_eq_zero_iff (n := 2) (by norm_num) |>.mp h1.1
    have := pow_eq_zero_iff (n := 2) (by norm_num) |>.mp h1.2
    exact Prod.ext (by assumption) (by assumption)
  · rintro rfl; simp

theorem norm2_neg (w : ℝ × ℝ) : norm2 (-w) = norm2 w := by
  unfold norm2
  simp

/-- C3: the drag acceleration equals `0.5*rho*c_d*area/m * |v| * v` with the
stated constants; on `(a,0)` with `a > 0` it is `(0.5*rho*c_d*area/m * a², 0)`;
it is always a nonnegative scalar multiple of `v`; and it vanishes exactly
when `v` does. -/
theorem wind_acceleration_spec :
    (∀ v : ℝ × ℝ,
      wind_acceleration v
        = ((0.5 * 1.184 * 0.47 * (4 * Real.pi * 0.05 ^ 2) / 0.2) * norm2 v) • v) ∧
    (∀ a : ℝ, 0 < a →
      wind_acceleration (a, 0)
        = (0.5 * 1.184 * 0.47 * (4 * Real.pi * 0.05 ^ 2) / 0.2 * a ^ 2, 0)) ∧
    (∀ v : ℝ × ℝ, ∃ c : ℝ, 0 ≤ c ∧ wind_acceleration v = c • v) ∧
    (∀ v : ℝ × ℝ, wind_acceleration v = 0 ↔ v = 0) := by
  have hcoef : (0:ℝ) < 0.5 * rho * c_d * area / m := by
    have hpi := Real.pi_pos
    unfold rho c_d area m robot_radius
    positivity
  have hform : ∀ v : ℝ × ℝ,
      wind_acceleration v = ((0.5 * rho * c_d * area / m) * norm2 v) • v := by
    intro v
    unfold wind_acceleration
    apply Prod.ext <;> · simp [Prod.smul_def, smul_eq_mul]; ring
  have hconst : (0.5 * rho * c_d * area / m)
      = 0.5 * 1.184 * 0.47 * (4 * Real.pi * 0.05 ^ 2) / 0.2 := by
    unfold rho c_d area m robot_radius; ring
  refine ⟨?_, ?_, ?_, ?_⟩
  · intro v
    rw [hform, hconst]
  · intro a ha
    have hn : norm2 (a, 0) = a := by
      unfold norm2
      simp [Real.sqrt_sq ha.le]
    rw [hform, hn, hconst]
    apply Prod.ext <;> simp [Prod.smul_def, smul_eq_mul] <;> ring
  · intro v
    exact ⟨(0.5 * rho * c_d * area / m) * norm2 v,
      mul_nonneg hcoef.le (norm2_nonneg v), hform v⟩
  · intro v
    constructor
    · intro h
      by_contra hv
      have hn : 0 < norm2 v := by
        rcases lt_or_eq_of_le (norm2_nonneg v) with h' | h'
        · exact h'
        · exact absurd ((norm2_eq_zero_iff v).mp h'.symm) hv
      have hc : (0.5 * rho * c_d * area / m) * norm2 v ≠ 0 :=
        ne_of_gt (mul_pos hcoef hn)
      have := hform v
      rw [h] at this
      exact hv ((smul_eq_zero.mp this.symm).resolve_left hc)
    · rintro rfl
      rw [hform]
      simp

/-- Witness for C3 at the concrete positive relative wind `(1, 0)`. -/
theorem wind_acceleration_spec_witness :
    wind_acceleration (1, 0)
      = (0.5 * 1.184 * 0.47 * (4 * Real.pi * 0.05 ^ 2) / 0.2 * (1 : ℝ) ^ 2, 0) :=
  wind_acceleration_spec.2.1 1 (by norm_num)

/-! ## Random-turbulence disturbance field (`setup_random_turbulence` /
`get_disturbance`, `'random'` branch) -/

/-- One seed of `setup_random_turbulence`:
`np.random.rand() * (bounds[1] - bounds[0]) + bounds[0]`, componentwise, with
`u` the fresh uniform draw in `[0,1)²`. -/
def sampleSeed (u : ℝ × ℝ) : ℝ × ℝ :=
  (u.1 * (bmax - bmin) + bmin, u.2 * (bmax - bmin) + bmin)

/-- `np.sign`, applied in `setup_random_turbulence` to `rand() - 0.5`. -/
noncomputable def npSign (x : ℝ) : ℝ :=
  if 0 < x then 1 else if x < 0 then -1 else 0

/-- The `'random'` branch of `get_disturbance` after seeds and directions are
drawn: with `D k = seeds k - q`, the returned velocity is
`(bmax - bmin) * Σ_k (dir_k * (-D_y / ‖D‖²), dir_k * (D_x / ‖D‖²))`. -/
noncomputable def vortex_sum (seeds : Fin 5 → ℝ × ℝ) (dirs : Fin 5 → ℝ)
    (q : ℝ × ℝ) : ℝ × ℝ :=
  (bmax - bmin) •
    ∑ k : Fin 5,
      (dirs k * (-(seeds k - q).2 / norm2 (seeds k - q) ^ 2),
       dirs k * ((seeds k - q).1 / norm2 (seeds k - q) ^ 2))

/-- `get_disturbance` in the `'random'` variant: it first re-samples the five
seeds and directions (`setup_random_turbulence`) from the fresh uniform draws
`useed`, `udir`, then evaluates the vortex superposition at the query point. -/
noncomputable def get_disturbance_random (useed : Fin 5 → ℝ × ℝ)
    (udir : Fin 5 → ℝ) (q : ℝ × ℝ) : ℝ × ℝ :=
  vortex_sum (fun k => sampleSeed (useed k)) (fun k => npSign (udir k - 0.5)) q

/-- Perpendicular (clockwise) rotation of a 2-vector, the sense realised by
the code's `(-D_y, D_x)` stencil once rewritten in terms of `query - seed`. -/
def perp (w : ℝ × ℝ) : ℝ × ℝ := (w.2, -w.1)

/-- Spec-side formula for the random disturbance field: the sum over seeds of
`direction * (bounds range) * perpendicular(query - seed) / ‖query - seed‖²`. -/
noncomputable def spec_vortex_field (seeds : Fin 5 → ℝ × ℝ) (dirs : Fin 5 → ℝ)
    (q : ℝ × ℝ) : ℝ × ℝ :=
  ∑ k : Fin 5,
    (dirs k * (bmax - bmin) / norm2 (q - seeds k) ^ 2) • perp (q - seeds k)

/-- C4: the random-variant disturbance at a query point equals, for the
freshly sampled seeds and signs, the sum over the five seeds of
`direction * range * perp(query - seed) / ‖query - seed‖²`; moreover each
sampled seed lies inside the bounds whenever its uniform draw lies in
`[0,1)²`, and each direction is `±1` whenever its draw is not exactly `0.5`. -/
theorem get_disturbance_random_spec :
    (∀ (useed : Fin 5 → ℝ × ℝ) (udir : Fin 5 → ℝ) (q : ℝ × ℝ),
      get_disturbance_random useed udir q
        = spec_vortex_field (fun k => sampleSeed (useed k))
            (fun k => npSign (udir k - 0.5)) q) ∧
    (∀ u : ℝ × ℝ, 0 ≤ u.1 → u.1 < 1 → 0 ≤ u.2 → u.2 < 1 →
      bmin ≤ (sampleSeed u).1 ∧ (sampleSeed u).1 < bmax ∧
      bmin ≤ (sampleSeed u).2 ∧ (sampleSeed u).2 < bmax) ∧
    (∀ x : ℝ, x ≠ 0.5 → npSign (x - 0.5) = 1 ∨ npSign (x - 0.5) = -1) := by
  refine ⟨?_, ?_, ?_⟩
  · intro useed udir q
    unfold get_disturbance_random spec_vortex_field vortex_sum
    rw [Finset.smul_sum]
    refine Finset.sum_congr rfl (fun k _ => ?_)
    have hn : norm2 (q - sampleSeed (useed k)) = norm2 (sampleSeed (useed k) - q) := by
      rw [← norm2_neg (sampleSeed (useed k) - q), neg_sub]
    apply Prod.ext
    · simp only [Prod.smul_def, smul_eq_mul, perp, Prod.fst_sub, Prod.snd_sub, hn]
      ring
    · simp only [Prod.smul_def, smul_eq_mul, perp, Prod.fst_sub, Prod.snd_sub, hn]
      ring
  · intro u h1 h2 h3 h4
    unfold sampleSeed bmin bmax
    refine ⟨by simp; nlinarith, by simp; nlinarith, by simp; nlinarith, by simp; nlinarith⟩
  · intro x hx
    unfold npSign
    rcases lt_trichotomy x 0.5 with h | h | h
    · right
      rw [if_neg (by linarith), if_pos (by linarith)]
    · exact absurd h hx
    · left
      rw [if_pos (by linarith)]

/-- Witness for C4 at the concrete draws `u = (0,0)` and `x = 0`. -/
theorem get_disturbance_random_spec_witness :
    (bmin ≤ (sampleSeed (0, 0)).1 ∧ (sampleSeed (0, 0)).1 < bmax ∧
     bmin ≤ (sampleSeed (0, 0)).2 ∧ (sampleSeed (0, 0)).2 < bmax) ∧
    (npSign ((0 : ℝ) - 0.5) = 1 ∨ npSign ((0 : ℝ) - 0.5) = -1) :=
  ⟨get_disturbance_random_spec.2.1 (0, 0) (by norm_num) (by norm_num)
      (by norm_num) (by norm_num),
   get_disturbance_random_spec.2.2 0 (by norm_num)⟩

/-! ## Agent dynamics integrator (`_simulate_second_order`) -/

/-- `_simulate_second_order(action, v_wr)`: computes
`wind_acceleration(v_wr)`, then for each agent `i` in index order performs
`p[i] += dt * vel[i]` followed by `vel[i] += dt * (action[i] + wind_acc[i])`. -/
noncomputable def simulate_second_order (p vel action v_wr : Fin 3 → ℝ × ℝ) :
    (Fin 3 → ℝ × ℝ) × (Fin 3 → ℝ × ℝ) :=
  (List.finRange 3).foldl
    (fun st i =>
      (Function.update st.1 i (st.1 i + dt • st.2 i),
       Function.update st.2 i (st.2 i + dt • (action i + wind_acceleration (v_wr i)))))
    (p, vel)

theorem simulate_second_order_apply (p vel action v_wr : Fin 3 → ℝ × ℝ)
    (i : Fin 3) :
    (simulate_second_order p vel action v_wr).1 i = p i + dt • vel i ∧
    (simulate_second_order p vel action v_wr).2 i
      = vel i + dt • (action i + wind_acceleration (v_wr i)) := by
  have h3 : List.finRange 3 = [0, 1, 2] := by decide
  unfold simulate_second_order
  rw [h3]
  simp only [List.foldl]
  fin_cases i <;>
    simp [Function.update_same, Function.update_noteq, Function.update]

/-- Zero wind gives zero drag acceleration. -/
theorem wind_acceleration_zero : wind_acceleration 0 = 0 := by
  unfold wind_acceleration
  simp

/-- C1: `_simulate_second_order` is semi-implicit Euler per agent in index
order: every new position is `p_i + dt * v_i` with the pre-step velocity, and
every new velocity is `v_i + dt * (action_i + wind_acc_i)`; in particular,
with zero commanded acceleration and zero wind acceleration positions advance
by exactly `dt * v_old` and velocities are unchanged. -/
theorem simulate_second_order_spec (p vel action v_wr : Fin 3 → ℝ × ℝ) :
    (∀ i, (simulate_second_order p vel action v_wr).1 i = p i + dt • vel i ∧
          (simulate_second_order p vel action v_wr).2 i
            = vel i + dt • (action i + wind_acceleration (v_wr i))) ∧
    ((∀ i, action i = 0) → (∀ i, wind_acceleration (v_wr i) = 0) →
      ∀ i, (simulate_second_order p vel action v_wr).1 i = p i + dt • vel i ∧
           (simulate_second_order p vel action v_wr).2 i = vel i) := by
  refine ⟨simulate_second_order_apply p vel action v_wr, ?_⟩
  intro ha hw i
  obtain ⟨h1, h2⟩ := simulate_second_order_apply p vel action v_wr i
  refine ⟨h1, ?_⟩
  rw [h2, ha i, hw i]
  simp

/-- Witness for C1 with zero commanded acceleration and zero relative wind:
position moves by `dt • v`, velocity is unchanged. -/
theorem simulate_second_order_spec_witness :
    (simulate_second_order (fun _ => (1, 2)) (fun _ => (3, 4))
        (fun _ => 0) (fun _ => 0)).1 0 = (1, 2) + dt • (3, 4) ∧
    (simulate_second_order (fun _ => (1, 2)) (fun _ => (3, 4))
        (fun _ => 0) (fun _ => 0)).2 0 = (3, 4) := by
  have h := (simulate_second_order_spec (fun _ => (1, 2)) (fun _ => (3, 4))
      (fun _ => 0) (fun _ => 0)).2
    (fun _ => rfl) (fun _ => wind_acceleration_zero) 0
  exact ⟨h.1, h.2⟩

/-! ## Formation graph, controller (`step`, acceleration block) and reward -/

/-- Adjacency lists of the formation graph `G` with edges
`(0,1), (1,2), (2,0)` (a 3-cycle), in `networkx` insertion order. -/
def neighbors : Fin 3 → List (Fin 3)
  | ⟨0, _⟩ => [1, 2]
  | ⟨1, _⟩ => [0, 2]
  | ⟨2, _⟩ => [1, 0]

/-- `self.formation_ref = [[0,0],[1,0],[1/√2, 1/√2]]`. -/
noncomputable def formation_ref : Fin 3 → ℝ × ℝ
  | ⟨0, _⟩ => (0, 0)
  | ⟨1, _⟩ => (1, 0)
  | ⟨2, _⟩ => (1 / Real.sqrt 2, 1 / Real.sqrt 2)

/-- Follower accumulation loop of `step`: starting from `acc[i] = 0`, for each
graph neighbor `j` of `i` add
`-K_p*((p_i - p_j) + (ref_i - ref_j)) - K_d*(v_i - v_j)`. -/
noncomputable def follower_acc (p vel : Fin 3 → ℝ × ℝ) (i : Fin 3) : ℝ × ℝ :=
  (neighbors i).foldl
    (fun a j =>
      a + (-(K_p • ((p i - p j) + (formation_ref i - formation_ref j)))
            - K_d • (vel i - vel j)))
    0

/-- The acceleration block of `step`: row 0 is the leader PD law with the
halved proportional gain, rows `1..2` are the follower accumulation loops. -/
noncomputable def ctrl_acc (goal leader_vel : ℝ × ℝ) (p vel : Fin 3 → ℝ × ℝ) :
    Fin 3 → ℝ × ℝ :=
  fun i =>
    if i = 0 then (0.5 * K_p) • (goal - p 0) + K_d • (leader_vel - vel 0)
    else follower_acc p vel i

theorem foldl_add_eq_sum {α M : Type*} [AddCommMonoid M] (f : α → M) :
    ∀ (l : List α) (init : M),
      l.foldl (fun a j => a + f j) init = init + (l.map f).sum := by
  intro l
  induction l with
  | nil => intro init; simp
  | cons x xs ih =>
      intro init
      simp [List.foldl, ih, add_assoc]

/-- C2: the commanded acceleration used by `step` is, for the leader,
`0.5*K_p*(goal - p_0) + K_d*(leader_vel - v_0)`, and for every follower
`i ≠ 0` the sum over its graph neighbors `j` of
`-K_p*((p_i - p_j) + (ref_i - ref_j)) - K_d*(v_i - v_j)`. -/
theorem ctrl_acc_spec (goal leader_vel : ℝ × ℝ) (p vel : Fin 3 → ℝ × ℝ) :
    ctrl_acc goal leader_vel p vel 0
      = (0.5 * K_p) • (goal - p 0) + K_d • (leader_vel - vel 0) ∧
    ∀ i : Fin 3, i ≠ 0 →
      ctrl_acc goal leader_vel p vel i
        = ((neighbors i).map (fun j =>
            -(K_p • ((p i - p j) + (formation_ref i - formation_ref j)))
              - K_d • (vel i - vel j))).sum := by
  constructor
  · simp [ctrl_acc]
  · intro i hi
    simp [ctrl_acc, hi, follower_acc, foldl_add_eq_sum]

/-- Witness for C2 at the concrete follower `i = 1` with zero state. -/
theorem ctrl_acc_spec_witness :
    ctrl_acc 0 0 (fun _ => 0) (fun _ => 0) 1
      = ((neighbors 1).map (fun j =>
          -(K_p • (((0 : ℝ × ℝ) - 0) + (formation_ref 1 - formation_ref j)))
            - K_d • ((0 : ℝ × ℝ) - 0))).sum :=
  (ctrl_acc_spec 0 0 (fun _ => 0) (fun _ => 0)).2 1 (by decide)

/-- `compute_reward`: for every node `i` and every neighbor `j` of `i`,
accumulate `‖p_i - p_j‖ - ‖ref_i - ref_j‖`. -/
noncomputable def compute_reward (p : Fin 3 → ℝ × ℝ) : ℝ :=
  (List.finRange 3).foldl
    (fun r i =>
      (neighbors i).foldl
        (fun r' j =>
          r' + (norm2 (p i - p j) - norm2 (formation_ref i - formation_ref j)))
        r)
    0

/-- The directed edge list traversed by `compute_reward`: each undirected edge
of the 3-cycle appears twice, once per endpoint, leader edges included. -/
def reward_edges : List (Fin 3 × Fin 3) :=
  [(0, 1), (0, 2), (1, 0), (1, 2), (2, 1), (2, 0)]

/-- C7: `compute_reward` is the sum over all six directed edges (every
undirected edge counted once per endpoint, edges incident to the leader
included) of `‖p_i - p_j‖ - ‖ref_i - ref_j‖`; consequently it vanishes
whenever the positions are a translate of the formation reference. -/
theorem compute_reward_spec :
    (∀ p : Fin 3 → ℝ × ℝ,
      compute_reward p
        = (reward_edges.map (fun e =>
            norm2 (p e.1 - p e.2)
              - norm2 (formation_ref e.1 - formation_ref e.2))).sum) ∧
    (∀ t : ℝ × ℝ, compute_reward (fun i => formation_ref i + t) = 0) := by
  have h3 : List.finRange 3 = [0, 1, 2] := by decide
  have hsum : ∀ p : Fin 3 → ℝ × ℝ,
      compute_reward p
        = (reward_edges.map (fun e =>
            norm2 (p e.1 - p e.2)
              - norm2 (formation_ref e.1 - formation_ref e.2))).sum := by
    intro p
    have hn0 : neighbors 0 = [1, 2] := by decide
    have hn1 : neighbors 1 = [0, 2] := by decide
    have hn2 : neighbors 2 = [1, 0] := by decide
    unfold compute_reward reward_edges
    rw [h3]
    simp only [List.foldl_cons, List.foldl_nil, hn0, hn1, hn2,
      List.map, List.sum_cons, List.sum_nil]
    ring
  refine ⟨hsum, ?_⟩
  intro t
  rw [hsum]
  have hz : ∀ i j : Fin 3,
      norm2 ((formation_ref i + t) - (formation_ref j + t))
        - norm2 (formation_ref i - formation_ref j) = 0 := by
    intro i j
    rw [add_sub_add_right_eq_sub]
    ring
  unfold reward_edges
  simp only [List.map, List.sum_cons, List.sum_nil, hz]
  norm_num

/-! ## Environment driver (`step`) -/

/-- The mutable state owned by the driver: agent positions and velocities,
the leader goal, and the episode step counter `self.iter`. -/
structure EnvState where
  p : Fin 3 → ℝ × ℝ
  vel : Fin 3 → ℝ × ℝ
  leader_goal : ℝ × ℝ
  iter : ℕ

/-- One `step(action)` call: propagate the leader goal (after the 100-step
warm-up), compute the formation-law accelerations, query the disturbance at
the current positions (`wind`, standing for the selected turbulence model with
its random draws fixed), integrate the second-order dynamics, compute the
reward, and increment the counter.  Returns the new state together with the
`(observation, reward, done)` outputs; the caller-supplied `action` is
accepted but never read, exactly as in the source. -/
noncomputable def step (wind : (Fin 3 → ℝ × ℝ) → Fin 3 → ℝ × ℝ)
    (s : EnvState) (action : Fin 3 → ℝ × ℝ) :
    EnvState × (Fin 3 → ℝ × ℝ) × ℝ × Bool :=
  let leader_vel : ℝ × ℝ :=
    if 100 < s.iter then (0.2 * K_p) • (final_goal - s.leader_goal) else 0
  let goal : ℝ × ℝ :=
    if 100 < s.iter then s.leader_goal + dt • leader_vel else s.leader_goal
  let acc := ctrl_acc goal leader_vel s.p s.vel
  let v_we := wind s.p
  let v_wr := fun i => v_we i - s.vel i
  let pv := simulate_second_order s.p s.vel acc v_wr
  let reward := compute_reward pv.1
  let iter' := s.iter + 1
  let done := decide (max_episode_steps ≤ iter')
  (⟨pv.1, pv.2, goal, iter'⟩, pv.1, reward, done)

/-- C9: `step` never reads its action argument — from identical state with
identical disturbance draws, any two actions produce identical outputs and
identical successor states. -/
theorem step_action_irrelevant
    (wind : (Fin 3 → ℝ × ℝ) → Fin 3 → ℝ × ℝ) (s : EnvState)
    (a1 a2 : Fin 3 → ℝ × ℝ) :
    step wind s a1 = step wind s a2 := rfl

/-- The state reached after `k` further `step` calls, with per-call
disturbance draws `wind` and actions `acts`. -/
noncomputable def runSteps (wind : ℕ → (Fin 3 → ℝ × ℝ) → Fin 3 → ℝ × ℝ)
    (acts : ℕ → Fin 3 → ℝ × ℝ) (s0 : EnvState) : ℕ → EnvState
  | 0 => s0
  | k + 1 => (step (wind k) (runSteps wind acts s0 k) (acts k)).1

/-- The `done` flag returned by the `(k+1)`-st `step` call after state `s0`. -/
noncomputable def doneOfCall (wind : ℕ → (Fin 3 → ℝ × ℝ) → Fin 3 → ℝ × ℝ)
    (acts : ℕ → Fin 3 → ℝ × ℝ) (s0 : EnvState) (k : ℕ) : Bool :=
  (step (wind k) (runSteps wind acts s0 k) (acts k)).2.2.2

theorem step_iter (wind : (Fin 3 → ℝ × ℝ) → Fin 3 → ℝ × ℝ) (s : EnvState)
    (a : Fin 3 → ℝ × ℝ) : (step wind s a).1.iter = s.iter + 1 := rfl

theorem runSteps_iter (wind : ℕ → (Fin 3 → ℝ × ℝ) → Fin 3 → ℝ × ℝ)
    (acts : ℕ → Fin 3 → ℝ × ℝ) (s0 : EnvState) (k : ℕ) :
    (runSteps wind acts s0 k).iter = s0.iter + k := by
  induction k with
  | zero => rfl
  | succ n ih =>
      show (step _ _ _).1.iter = _
      rw [step_iter, ih]
      omega

/-- C8: starting from a reset state (`iter = 0`), for all disturbance draws
and all actions, the `done` flag of call number `k+1` is false when
`k + 1 < 450` and true when `450 ≤ k + 1`: `done` is exactly the test that
the post-increment counter has reached 450, and nothing else ends the
episode. -/
theorem done_iff_450 (wind : ℕ → (Fin 3 → ℝ × ℝ) → Fin 3 → ℝ × ℝ)
    (acts : ℕ → Fin 3 → ℝ × ℝ) (s0 : EnvState) (h0 : s0.iter = 0) :
    (∀ k : ℕ, k + 1 < 450 → doneOfCall wind acts s0 k = false) ∧
    (∀ k : ℕ, 450 ≤ k + 1 → doneOfCall wind acts s0 k = true) := by
  have hdone : ∀ k : ℕ, doneOfCall wind acts s0 k = decide (450 ≤ k + 1) := by
    intro k
    show decide (max_episode_steps ≤ (runSteps wind acts s0 k).iter + 1) = _
    rw [runSteps_iter, h0]
    norm_num [max_episode_steps]
  constructor
  · intro k hk
    rw [hdone]
    simp only [decide_eq_false_iff_not]
    omega
  · intro k hk
    rw [hdone]
    simp only [decide_eq_true_eq]
    omega

/-- Witness for C8: with zero wind and zero actions from a concrete reset
state, the first call returns `done = false` and the 450th returns `true`. -/
theorem done_iff_450_witness :
    doneOfCall (fun _ _ _ => 0) (fun _ _ => 0)
        ⟨fun _ => 0, fun _ => 0, (2, 2), 0⟩ 0 = false ∧
    doneOfCall (fun _ _ _ => 0) (fun _ _ => 0)
        ⟨fun _ => 0, fun _ => 0, (2, 2), 0⟩ 449 = true :=
  ⟨(done_iff_450 (fun _ _ _ => 0) (fun _ _ => 0)
      ⟨fun _ => 0, fun _ => 0, (2, 2), 0⟩ rfl).1 0 (by norm_num),
   (done_iff_450 (fun _ _ _ => 0) (fun _ _ => 0)
      ⟨fun _ => 0, fun _ => 0, (2, 2), 0⟩ rfl).2 449 (by norm_num)⟩

/-! ## Precomputed-field (`'NS'`) variant: time lookup of `get_disturbance`

The file-loading and spatial `grid_sample` interpolation live outside the
claims; what is modelled is the time-index bookkeeping of the `'NS'` branch:
the `t <= all_t[-1]` assertion, `np.where(all_t >= t)[0][0]`, the clamped
`idx_left = max(idx0 - 1, 0)`, `idx_right = idx_left + 1`, the array access
`all_t[idx_right]` (an index error when out of bounds), and the normalized
time weight `2*((t - t_left)/(t_right - t_left)) - 1`.  Timestamps are exact
decimal values parsed from filenames, modelled over `ℚ`. -/

/-- The failure modes of the `'NS'` branch of `get_disturbance`: the
`t <= all_t[-1]` assertion, the `idx.size > 0` assertion, and an out-of-range
numpy array access. -/
inductive NSError where
  | timeOutOfRange
  | noData
  | indexError
deriving DecidableEq

/-- The normalized time-interpolation weight
`2 * ((t - t_left) / (t_right - t_left)) - 1` of the `'NS'` branch. -/
def timeWeight (ta tb t : ℚ) : ℚ := 2 * ((t - ta) / (tb - ta)) - 1

/-- The load-time non-empty check of `_setup_NS_turbulence`:
`assert num_t > 0`. -/
def load_files_check (num_files : ℕ) : Bool := decide (0 < num_files)

/-- The time-index bookkeeping of the `'NS'` branch of `get_disturbance`:
returns the two bracketing frame indices and the time weight, or the failure
that the corresponding numpy code raises. -/
def nsLookup (ts : List ℚ) (t : ℚ) : Except NSError (ℕ × ℕ × ℚ) :=
  match ts.getLast? with
  | none => .error .indexError
  | some tmax =>
    if t ≤ tmax then
      match ts.findIdx? (fun x => decide (t ≤ x)) with
      | none => .error .noData
      | some i0 =>
        let idxL := i0 - 1
        let idxR := idxL + 1
        if idxR < ts.length then
          .ok (idxL, idxR, timeWeight (ts.getD idxL 0) (ts.getD idxR 0) t)
        else
          .error .indexError
    else .error .timeOutOfRange

/-- Counterexample to C5 as stated: for a simulation with a single timestamp,
the query at exactly the final timestamp fails (with an index error). -/
theorem ns_query_at_last_singleton_fails :
    nsLookup [(0 : ℚ)] 0 = .error .indexError := by rfl

/-- C5 (amended): provided the selected simulation has at least two
timestamps, a query at exactly the final timestamp succeeds, and a query at
any strictly greater time fails with the out-of-range simulation-time
error. -/
theorem ns_query_boundary (ts : List ℚ) (tmax : ℚ)
    (hlast : ts.getLast? = some tmax) (hlen : 2 ≤ ts.length) :
    (∃ r, nsLookup ts tmax = .ok r) ∧
    (∀ t : ℚ, tmax < t → nsLookup ts t = .error .timeOutOfRange) := by
  constructor
  · have hmem : tmax ∈ ts := List.mem_of_getLast?_eq_some hlast
    have hex : ∃ x, x ∈ ts ∧ (fun x => decide (tmax ≤ x)) x = true :=
      ⟨tmax, hmem, by simp⟩
    have hfind := List.findIdx?_eq_some_of_exists hex
    obtain ⟨hi0lt, -, -⟩ := List.findIdx?_eq_some_iff_getElem.mp hfind
    unfold nsLookup
    split
    · next heq => rw [heq] at hlast; cases hlast
    · next tmax' heq =>
      rw [heq] at hlast
      obtain rfl := Option.some.inj hlast
      rw [if_pos le_rfl]
      split
      · next heq2 => rw [hfind] at heq2; cases heq2
      · next i0 heq2 =>
        rw [hfind] at heq2
        obtain rfl : _ = i0 := Option.some.inj heq2
        rw [if_pos (by omega)]
        exact ⟨_, rfl⟩
  · intro t htg
    unfold nsLookup
    split
    · next heq => rw [heq] at hlast; cases hlast
    · next tmax' heq =>
      rw [heq] at hlast
      obtain rfl := Option.some.inj hlast
      rw [if_neg (not_le.mpr htg)]

/-- Witness for the amended C5 at the two-timestamp simulation `[0, 1]`. -/
theorem ns_query_boundary_witness :
    (∃ r, nsLookup [(0 : ℚ), 1] 1 = .ok r) ∧
    (∀ t : ℚ, 1 < t → nsLookup [(0 : ℚ), 1] t = .error .timeOutOfRange) :=
  ns_query_boundary [0, 1] 1 rfl (by norm_num)

/-- Spec-side definition for C6: the index of the last timestamp less than or
equal to the query time (the claim's characterization of the left bracket). -/
def spec_idx_left_le (ts : List ℚ) (t : ℚ) : Option ℕ :=
  ((List.range ts.length).filter (fun i => decide (ts.getD i 0 ≤ t))).getLast?

/-- Counterexample to C6 as stated: on timestamps `[0, 1, 2]` at query time
`1`, the last timestamp `≤ 1` has index `1`, but the code brackets with
`left = 0`, `right = 1`. -/
theorem ns_brackets_counterexample :
    nsLookup [(0 : ℚ), 1, 2] 1 = .ok (0, 1, 1) ∧
    spec_idx_left_le [(0 : ℚ), 1, 2] 1 = some 1 ∧ (0 : ℕ) ≠ 1 := by
  refine ⟨?_, by rfl, by norm_num⟩
  show Except.ok (0, 1, timeWeight 0 1 1) = _
  norm_num [timeWeight]

/-- `List.getD` agrees with `getElem` in bounds. -/
theorem getD_eq_getElem_of_lt (ts : List ℚ) (i : ℕ) (h : i < ts.length) :
    ts.getD i 0 = ts[i] := by
  simp [List.getD_eq_getElem?_getD, List.getElem?_eq_getElem h]

/-- C6 (amended): for sorted timestamps and an in-range query time, the left
bracket is the index of the last timestamp *strictly less than* the query time
(clamped to `0` when the query time is `≤` every timestamp), the right bracket
is the next index, and the time weight is the affine map sending the left
timestamp to `-1` and the right timestamp to `+1` evaluated at the query
time. -/
theorem ns_brackets (ts : List ℚ) (tmax t : ℚ)
    (hsort : ts.Sorted (· < ·)) (hlast : ts.getLast? = some tmax)
    (hlen : 2 ≤ ts.length) (ht : t ≤ tmax) :
    ∃ L : ℕ,
      nsLookup ts t
        = .ok (L, L + 1, timeWeight (ts.getD L 0) (ts.getD (L + 1) 0) t) ∧
      L + 1 < ts.length ∧
      (∀ i : ℕ, i < ts.length → ts.getD i 0 < t → i ≤ L) ∧
      (1 ≤ L → ts.getD L 0 < t) ∧
      timeWeight (ts.getD L 0) (ts.getD (L + 1) 0) (ts.getD L 0) = -1 ∧
      timeWeight (ts.getD L 0) (ts.getD (L + 1) 0) (ts.getD (L + 1) 0) = 1 := by
  have hmono : ∀ (i j : ℕ) (hi : i < ts.length) (hj : j < ts.length), i < j →
      ts.getD i 0 < ts.getD j 0 := by
    intro i j hi hj hij
    rw [getD_eq_getElem_of_lt ts i hi, getD_eq_getElem_of_lt ts j hj]
    have := hsort.rel_get_of_lt (a := ⟨i, hi⟩) (b := ⟨j, hj⟩) (by simpa using hij)
    simpa using this
  have hmem : tmax ∈ ts := List.mem_of_getLast?_eq_some hlast
  have hex : ∃ x, x ∈ ts ∧ (fun x => decide (t ≤ x)) x = true :=
    ⟨tmax, hmem, by simpa using ht⟩
  have hfind := List.findIdx?_eq_some_of_exists hex
  obtain ⟨hi0lt, hp, hbefore⟩ := List.findIdx?_eq_some_iff_getElem.mp hfind
  set i0 := ts.findIdx (fun x => decide (t ≤ x)) with hi0
  have hti0 : t ≤ ts.getD i0 0 := by
    rw [getD_eq_getElem_of_lt ts i0 hi0lt]
    simpa using hp
  have hbefore2 : ∀ j, j < i0 → ts.getD j 0 < t := by
    intro j hji
    rw [getD_eq_getElem_of_lt ts j (Nat.lt_trans hji hi0lt)]
    simpa using hbefore j hji
  refine ⟨i0 - 1, ?_, by omega, ?_, ?_, ?_, ?_⟩
  · -- the lookup itself
    unfold nsLookup
    split
    · next heq => rw [heq] at hlast; cases hlast
    · next tmax' heq =>
      rw [heq] at hlast
      obtain rfl := Option.some.inj hlast
      rw [if_pos ht]
      split
      · next heq2 => rw [hfind] at heq2; cases heq2
      · next i0' heq2 =>
        rw [hfind] at heq2
        obtain rfl := Option.some.inj heq2
        rw [if_pos (by omega)]
  · -- upper bound: any index whose timestamp is < t is ≤ i0 - 1
    intro i hilen hit
    by_contra hgt
    have hi0le : i0 ≤ i := by omega
    have : t ≤ ts.getD i 0 := by
      rcases Nat.eq_or_lt_of_le hi0le with rfl | hlt
      · exact hti0
      · exact le_of_lt (lt_of_le_of_lt hti0 (hmono i0 i hi0lt hilen hlt))
    exact absurd hit (not_lt.mpr this)
  · -- when the left bracket is ≥ 1 its timestamp is strictly below t
    intro hL
    exact hbefore2 (i0 - 1) (by omega)
  · -- the weight sends the left timestamp to -1
    unfold timeWeight
    rw [sub_self, zero_div]
    norm_num
  · -- the weight sends the right timestamp to +1
    have hlr : ts.getD (i0 - 1) 0 < ts.getD (i0 - 1 + 1) 0 :=
      hmono (i0 - 1) (i0 - 1 + 1) (by omega) (by omega) (by omega)
    unfold timeWeight
    rw [div_self (ne_of_gt (sub_pos.mpr hlr))]
    norm_num

/-- Witness for the amended C6 on the sorted timestamps `[0, 1]` at the
in-range query time `1/2`. -/
theorem ns_brackets_witness :
    ∃ L : ℕ,
      nsLookup [(0 : ℚ), 1] (1 / 2)
        = .ok (L, L + 1,
            timeWeight ([(0 : ℚ), 1].getD L 0) ([(0 : ℚ), 1].getD (L + 1) 0)
              (1 / 2)) ∧
      L + 1 < [(0 : ℚ), 1].length ∧
      (∀ i : ℕ, i < [(0 : ℚ), 1].length → [(0 : ℚ), 1].getD i 0 < 1 / 2 →
        i ≤ L) ∧
      (1 ≤ L → [(0 : ℚ), 1].getD L 0 < 1 / 2) ∧
      timeWeight ([(0 : ℚ), 1].getD L 0) ([(0 : ℚ), 1].getD (L + 1) 0)
          ([(0 : ℚ), 1].getD L 0) = -1 ∧
      timeWeight ([(0 : ℚ), 1].getD L 0) ([(0 : ℚ), 1].getD (L + 1) 0)
          ([(0 : ℚ), 1].getD (L + 1) 0) = 1 :=
  ns_brackets [0, 1] 1 (1 / 2) (by decide) rfl (by norm_num) (by norm_num)

/-- C10: a simulation with exactly one data file passes the load-time
non-empty check, yet every in-range disturbance query aborts with an index
error (the right bracket `idx_left + 1 = 1` is out of range for the length-1
timestamp array), and no query on it ever returns a value. -/
theorem single_frame_sim_never_serves :
    load_files_check 1 = true ∧
    (∀ t0 t : ℚ, t ≤ t0 → nsLookup [t0] t = .error .indexError) ∧
    (∀ t0 t : ℚ, ∀ r : ℕ × ℕ × ℚ, nsLookup [t0] t ≠ .ok r) := by
  have hidx : ∀ t0 t : ℚ, t ≤ t0 → nsLookup [t0] t = .error .indexError := by
    intro t0 t h
    unfold nsLookup
    simp [List.findIdx?_cons, h]
  refine ⟨rfl, hidx, ?_⟩
  intro t0 t r
  rcases le_or_lt t t0 with h | h
  · rw [hidx t0 t h]
    simp
  · unfold nsLookup
    simp [not_le.mpr h]

/-- Witness for C10 at the concrete single-timestamp simulation `[1]`,
queried exactly at its final timestamp. -/
theorem single_frame_sim_never_serves_witness :
    nsLookup [(1 : ℚ)] 1 = .error .indexError :=
  single_frame_sim_never_serves.2.1 1 1 le_rfl

end TurbulentFormationEnv
